import Mathlib

/-!
Verification of the attention-state resolution engine of check-feedback.

Timestamps and identities are the ISO-8601 / login strings the program
receives from the API; the Python source compares them with plain string
comparison (lexicographic by code point), which is modelled here by
`strLt` / `strLe` on the underlying character lists, and the Python
case-folding `.lower()` by mapping `Char.toLower` over the characters
(exact for the ASCII data involved).
-/

/-- The mentor login, MENTOR in the source (already lower-case there). -/
def MENTOR : String := "kc8se"

/-- The epoch sentinel the watermark starts from in build_row. -/
def EPOCH : String := "1970-01-01T00:00:00Z"

deriving instance DecidableEq for Except

/-- Lexicographic strict order on character lists, by code point: the Python string `<`. An exhausted left list is smaller; the first differing
character decides. -/
def strLtB : List Char → List Char → Bool
  | _, [] => false
  | [], _ :: _ => true
  | a :: as, b :: bs =>
    if a.toNat < b.toNat then true
    else if b.toNat < a.toNat then false
    else strLtB as bs

/-- The Python `a < b` on strings. -/
def strLt (a b : String) : Bool := strLtB a.data b.data

/-- The Python `a <= b` on strings: the order is total, so `a <= b` iff not `b < a`. -/
def strLe (a b : String) : Bool := !(strLtB b.data a.data)

/-- The Python `.lower()` (ASCII case folding suffices for all data involved). -/
def lowerData (s : String) : List Char := s.data.map Char.toLower

-- ─── order lemmas for strLtB ───

theorem strLtB_irrefl (l : List Char) : strLtB l l = false := by
  induction l with
  | nil => rfl
  | cons a as ih => simp [strLtB, ih]

theorem strLtB_asymm {a b : List Char} (h : strLtB a b = true) :
    strLtB b a = false := by
  induction a generalizing b with
  | nil =>
    cases b with
    | nil => simp [strLtB] at h
    | cons x xs => rfl
  | cons x xs ih =>
    cases b with
    | nil => simp [strLtB] at h
    | cons y ys =>
      simp only [strLtB] at h ⊢
      by_cases h1 : x.toNat < y.toNat
      · have h2 : ¬ y.toNat < x.toNat := by omega
        simp [h1, h2]
      · by_cases h2 : y.toNat < x.toNat
        · simp [h1, h2] at h
        · simp [h1, h2] at h ⊢
          exact ih h

theorem strLtB_le_trans {a b c : List Char} (h1 : strLtB b a = false)
    (h2 : strLtB c b = false) : strLtB c a = false := by
  induction a generalizing b c with
  | nil => cases c <;> simp [strLtB]
  | cons x xs ih =>
    cases b with
    | nil => simp [strLtB] at h1
    | cons y ys =>
      cases c with
      | nil => simp [strLtB] at h2
      | cons z zs =>
        simp only [strLtB] at h1 h2 ⊢
        by_cases hyx : y.toNat < x.toNat
        · simp [hyx] at h1
        · by_cases hzy : z.toNat < y.toNat
          · simp [hzy] at h2
          · simp only [if_neg hyx] at h1
            simp only [if_neg hzy] at h2
            have hzx : ¬ z.toNat < x.toNat := by omega
            simp only [if_neg hzx]
            by_cases hxy : x.toNat < y.toNat
            · have hxz : x.toNat < z.toNat := by omega
              simp [hxz]
            · by_cases hyz : y.toNat < z.toNat
              · have hxz : x.toNat < z.toNat := by omega
                simp [hxz]
              · have hxz : ¬ x.toNat < z.toNat := by omega
                simp only [if_neg hxz]
                simp only [if_neg hxy] at h1
                simp only [if_neg hyz] at h2
                exact ih h1 h2

theorem strLe_refl (a : String) : strLe a a = true := by
  simp [strLe, strLtB_irrefl]

theorem strLe_trans {a b c : String} (h1 : strLe a b = true)
    (h2 : strLe b c = true) : strLe a c = true := by
  simp only [strLe, Bool.not_eq_true'] at h1 h2 ⊢
  exact strLtB_le_trans h1 h2

theorem strLt_le {a b : String} (h : strLt a b = true) : strLe a b = true := by
  simp only [strLt] at h
  simp only [strLe, Bool.not_eq_true', strLtB_asymm h]

theorem strLt_false_le {a b : String} (h : strLt a b = false) :
    strLe b a = true := by
  simp only [strLt] at h
  simp only [strLe, Bool.not_eq_true', h]

-- sanity checks: these comparisons must reduce in the kernel
example : strLt "1969-12-31T00:00:00Z" "1970-01-01T00:00:00Z" = true := by decide
example : strLe "1970-01-01T00:00:00Z" "1969-12-31T00:00:00Z" = false := by decide
example : lowerData "KC8SE" = "kc8se".data := by decide

-- ─── Event model (the JSON shapes build_row consumes) ───

/-- One entry of the commits listing: author login (absent when the commit
has no linked account), the commit author display name and date, and the
sha. -/
structure CommitObj where
  authorLogin : Option String
  authorName : String
  date : String
  sha : String
deriving DecidableEq

/-- A pull-request review: user login, state, submitted_at. -/
structure Review where
  author : String
  state : String
  submitted_at : String
deriving DecidableEq

/-- A reaction on an issue comment: user login and created_at. -/
structure Reaction where
  author : String
  created_at : String
deriving DecidableEq

/-- An issue comment: user login, created_at, and the result of the
per-comment reactions fetch (a failed fetch is an error and is treated as
an empty list by the code). -/
structure Comment where
  author : String
  created_at : String
  reactions : Except Unit (List Reaction)
deriving DecidableEq

/-- The combined-status object: rollup state and the list of statuses. -/
structure StatusObj where
  state : String
  statuses : List String
deriving DecidableEq

/-- One repository listing entry, as consumed by main and build_row. -/
structure RepoObj where
  name : String
  created_at : String
  updated_at : String
  default_branch : Option String
deriving DecidableEq

/-- The per-repository data build_row fetches: commits, combined status of
the newest sha, the feedback-PR reviews, and its issue comments. Each
fetch can fail with a transport error. -/
structure Thread where
  commits : Except Unit (List CommitObj)
  status : Except Unit StatusObj
  reviews : Except Unit (List Review)
  comments : Except Unit (List Comment)
deriving DecidableEq

/-- A failed reviews fetch yields the empty list (the except branch). -/
def reviewsOf (t : Thread) : List Review :=
  match t.reviews with
  | .ok l => l
  | .error _ => []

/-- A failed comments fetch yields the empty list (the except branch). -/
def commentsOf (t : Thread) : List Comment :=
  match t.comments with
  | .ok l => l
  | .error _ => []

/-- A failed reactions fetch yields the empty list (the except branch). -/
def reactionsOf (c : Comment) : List Reaction :=
  match c.reactions with
  | .ok l => l
  | .error _ => []

/-- The mentor test used throughout: login lower-cased equals MENTOR. -/
def isMentor (a : String) : Bool := lowerData a == MENTOR.data

-- ─── helpers: formatters and the ignore patterns ───

/-- Embeds iso_to_ddmm_hhmm for the canonical YYYY-MM-DDTHH:MM:SSZ inputs
the API serves: strftime of the parsed fields equals field extraction. -/
def iso_to_ddmm_hhmm (ts : String) : String :=
  ⟨(ts.data.drop 8).take 2 ++ '/' :: (ts.data.drop 5).take 2
    ++ ' ' :: (ts.data.drop 11).take 5⟩

/-- Embeds iso_to_yyyymmdd for canonical YYYY-MM-DDTHH:MM:SSZ inputs. -/
def iso_to_yyyymmdd (ts : String) : String :=
  ⟨ts.data.take 4 ++ (ts.data.drop 5).take 2 ++ (ts.data.drop 8).take 2⟩

/-- Python regex \s characters (the ones `[-\s]?` can consume). -/
def isSpaceChar (c : Char) : Bool :=
  c == ' ' || c == '\t' || c == '\n' || c == '\r' || c == '\x0b' || c == '\x0c'

/-- Strip an expected word from the front of a character list. -/
def stripWord : List Char → List Char → Option (List Char)
  | l, [] => some l
  | [], _ :: _ => none
  | a :: as, b :: bs => if a == b then stripWord as bs else none

/-- The tail of a bot pattern: the word itself, optionally with [bot]. -/
def botOpt (l : List Char) (word : String) : Bool :=
  l == word.data || l == word.data ++ "[bot]".data

/-- The pattern github[-\s]?classroom(\[bot\])?, anchored, on a
lower-cased input. -/
def classroomMatch (l : List Char) : Bool :=
  match stripWord l "github".data with
  | none => false
  | some rest =>
    botOpt rest "classroom" ||
    (match rest with
     | [] => false
     | c :: rest2 => (c == '-' || isSpaceChar c) && botOpt rest2 "classroom")

/-- Embeds AUTHOR_IGNORE_PATTERNS: mentor, classroom bot, dependabot, all
case-insensitive and anchored. (The Python `$`-matches-before-a-final
newline subtlety is not modelled; no claim depends on it.) -/
def is_ignored (a : String) : Bool :=
  let l := lowerData a
  l == "kc8se".data || classroomMatch l || botOpt l "dependabot"

/-- Commit author pick: login when present and non-empty (Python `or`
falls through on falsy values), else the commit author name. -/
def commitAuthor (c : CommitObj) : String :=
  match c.authorLogin with
  | some l => if l = "" then c.authorName else l
  | none => c.authorName

-- sanity checks on the ignore patterns
example : is_ignored "KC8SE" = true := by decide
example : is_ignored "github-classroom[bot]" = true := by decide
example : is_ignored "GitHub Classroom" = true := by decide
example : is_ignored "dependabot[bot]" = true := by decide
example : is_ignored "alice" = false := by decide
example : is_ignored "" = false := by decide

-- ─── Watermark reconciliation (the review / comment / reaction passes) ───

/-- Python max with a key: scans left to right and keeps the current
element unless a strictly greater key appears, so the first maximum wins. -/
def pyMaxReview (cur : Review) : List Review → Review
  | [] => cur
  | x :: xs => pyMaxReview (if strLt cur.submitted_at x.submitted_at then x else cur) xs

/-- my_reviews and `max(my_reviews, key=submitted_at)`: the reviews by the mentor,
and the latest of them when any exist. -/
def lastMentorReview (reviews : List Review) : Option Review :=
  match reviews.filter (fun rv => isMentor rv.author) with
  | [] => none
  | r :: rest => some (pyMaxReview r rest)

/-- mentor_last_seen after the reviews pass: the submitted_at of the latest
mentor review, or the epoch sentinel when the mentor never reviewed. -/
def wmAfterReviews (reviews : List Review) : String :=
  match lastMentorReview reviews with
  | none => EPOCH
  | some last => last.submitted_at

/-- The comments pass body: a mentor comment strictly after the watermark
advances it. -/
def commentStep (w : String) (c : Comment) : String :=
  if isMentor c.author && strLt w c.created_at then c.created_at else w

/-- The comments pass: left-to-right over the fetched comments. -/
def commentsPass (w : String) (cs : List Comment) : String :=
  cs.foldl commentStep w

/-- The inner reactions loop: the first mentor reaction strictly after the
watermark is taken and the loop breaks. -/
def firstQualifyingReaction (w : String) : List Reaction → Option String
  | [] => none
  | rx :: rest =>
    if isMentor rx.author && strLt w rx.created_at then some rx.created_at
    else firstQualifyingReaction w rest

/-- The reactions pass body: comments by the mentor or not after the
current watermark are skipped; otherwise the reactions of the comment are
fetched (the Nat counts these fetches) and the first qualifying mentor
reaction advances the watermark. -/
def reactStep (acc : String × Nat) (c : Comment) : String × Nat :=
  if isMentor c.author || strLe c.created_at acc.1 then acc
  else
    match firstQualifyingReaction acc.1 (reactionsOf c) with
    | some t => (t, acc.2 + 1)
    | none => (acc.1, acc.2 + 1)

/-- The reactions pass: left-to-right over the fetched comments, also
counting the per-comment reaction fetches it performs. -/
def reactionsPass (w : String) (cs : List Comment) : String × Nat :=
  cs.foldl reactStep (w, 0)

/-- The final mentor_last_seen watermark of build_row: reviews pass, then
comments pass, then reactions pass. -/
def mentorLastSeenFinal (rs : List Review) (cs : List Comment) : String :=
  (reactionsPass (commentsPass (wmAfterReviews rs) cs) cs).1

/-- The pending-message test: some non-mentor comment strictly after the
final watermark. -/
def msgFlag (rs : List Review) (cs : List Comment) : Bool :=
  cs.any fun c => !(isMentor c.author) && strLt (mentorLastSeenFinal rs cs) c.created_at

-- ─── Student-commit scan, health, and the row ───

/-- The outputs of the scan: student, displayed commit date, newest commit
timestamp (latest_commit_date_iso) and newest sha. -/
structure ScanOut where
  student : String
  commit_date : String
  latest_iso : String
  sha : Option String
deriving DecidableEq

/-- The first commit, newest first, whose author is non-empty and not
ignored. -/
def firstStudent : List CommitObj → Option CommitObj
  | [] => none
  | c :: rest =>
    let a := commitAuthor c
    if a ≠ "" ∧ is_ignored a = false then some c else firstStudent rest

/-- The student-commit scan of build_row: on a failed commits fetch
everything keeps its fallback; otherwise the newest commit fixes
latest_iso and the sha (Python truthiness: an empty sha string counts as
no sha), and the first non-ignored author fixes student and the displayed
date. -/
def studentScan (repo : RepoObj) (fetched : Except Unit (List CommitObj)) : ScanOut :=
  match fetched with
  | .error _ => ⟨"", iso_to_ddmm_hhmm repo.created_at, repo.created_at, none⟩
  | .ok commits =>
    let latest_iso := match commits with | [] => repo.created_at | c :: _ => c.date
    let sha := match commits with
      | [] => none
      | c :: _ => if c.sha = "" then none else some c.sha
    match firstStudent commits with
    | none => ⟨"", iso_to_ddmm_hhmm repo.created_at, latest_iso, sha⟩
    | some c => ⟨commitAuthor c, iso_to_ddmm_hhmm c.date, latest_iso, sha⟩

/-- The health column: only fetched when a sha exists; empty on a failed
fetch, on an empty statuses list, and on states other than success,
failure and error. -/
def healthOf (sha : Option String) (st : Except Unit StatusObj) : String :=
  match sha with
  | none => ""
  | some _ =>
    match st with
    | .error _ => ""
    | .ok s =>
      if s.statuses = [] then ""
      else if s.state = "success" then "Passed"
      else if s.state = "failure" ∨ s.state = "error" then "Failed"
      else ""

/-- The review-status decision of build_row, in source order: blank
student first, then APPROVED, then CHANGES_REQUESTED with the commit /
review timestamp comparison, else Unreviewed; with no mentor review the
status is blank for a blank student and Unreviewed otherwise. -/
def reviewStatus (student : String) (lastRv : Option Review) (latest_iso : String) : String :=
  match lastRv with
  | none => if student = "" then "" else "Unreviewed"
  | some last =>
    if student = "" then ""
    else if last.state = "APPROVED" then "Approved"
    else if last.state = "CHANGES_REQUESTED" then
      if strLt last.submitted_at latest_iso then "Rereview" else "CR"
    else "Unreviewed"

/-- The review-date column: yyyymmdd of the latest mentor review, blank
when the mentor never reviewed. -/
def reviewDateOf (lastRv : Option Review) : String :=
  match lastRv with
  | none => ""
  | some last => iso_to_yyyymmdd last.submitted_at

/-- Embeds build_row: the seven-column row for one repository. With no
feedback PR the whole review/comment block is skipped and the review and
message columns keep their empty defaults. pr_upd is accepted and unused,
as in the source. -/
def build_row (repo : RepoObj) (pr_num : Option Nat) (pr_upd : String) (t : Thread) :
    List String :=
  let scan := studentScan repo t.commits
  let health := healthOf scan.sha t.status
  match pr_num with
  | none => [repo.name, scan.student, scan.commit_date, health, "", "", ""]
  | some _ =>
    let rs := reviewsOf t
    let cs := commentsOf t
    [repo.name, scan.student, scan.commit_date, health,
     reviewStatus scan.student (lastMentorReview rs) scan.latest_iso,
     reviewDateOf (lastMentorReview rs),
     if msgFlag rs cs then "Message" else ""]

-- sanity: spec §8 scenario 6 (rereview plus pending message)
example :
    build_row ⟨"alice-lab1", "2024-01-01T00:00:00Z", "2024-03-01T00:00:00Z", some "main"⟩
      (some 1) "2024-03-01T00:00:00Z"
      ⟨Except.ok [⟨some "alice", "alice", "2024-02-10T00:00:00Z", "abc"⟩,
                  ⟨some "kc8se", "kc8se", "2024-02-01T00:00:00Z", "def"⟩],
       Except.error (),
       Except.ok [⟨"kc8se", "CHANGES_REQUESTED", "2024-02-05T00:00:00Z"⟩],
       Except.ok [⟨"alice", "2024-02-11T00:00:00Z", Except.ok []⟩]⟩
    = ["alice-lab1", "alice", "10/02 00:00", "", "Rereview", "20240205", "Message"] := by
  decide

-- ─── feedback-PR meta, cache, and the main loop ───

/-- One pull request of the `base=feedback, per_page=1` listing. -/
structure PRInfo where
  number : Nat
  updated_at : String
deriving DecidableEq

/-- Embeds how feedback_pr_meta handles its API response: a transport
error or an empty listing both collapse to (no PR, empty timestamp);
otherwise number and updated_at of the first PR. -/
def prMetaOf : Except Unit (List PRInfo) → Option Nat × String
  | .error _ => (none, "")
  | .ok [] => (none, "")
  | .ok (pr :: _) => (some pr.number, pr.updated_at)

/-- The upstream the run consumes: listing pages (after the last one the
API serves an empty page), the per-repository feedback-PR probe response,
and the per-repository data build_row would fetch. A second run with no
upstream change consumes the same Upstream value. -/
structure Upstream where
  pages : List (List RepoObj)
  prPage : String → Except Unit (List PRInfo)
  threadOf : String → Thread

/-- feedback_pr_meta for one repository of the upstream. -/
def feedback_pr_meta (u : Upstream) (repo : String) : Option Nat × String :=
  prMetaOf (u.prPage repo)

/-- One persisted cache entry: the two staleness keys and the stored row. -/
structure CacheEntry where
  repo_updated_at : String
  pr_updated_at : String
  row : List String
deriving DecidableEq

/-- The cache document: repository name to entry, insertion ordered. -/
abbrev Cache := List (String × CacheEntry)

/-- dict.get on the cache document. -/
def cacheLookup : Cache → String → Option CacheEntry
  | [], _ => none
  | (k, v) :: rest, name => if k = name then some v else cacheLookup rest name

/-- dict assignment: replace in place when the key exists, else append. -/
def dictInsert : Cache → String → CacheEntry → Cache
  | [], k, v => [(k, v)]
  | (k2, v2) :: rest, k, v =>
    if k2 = k then (k2, v) :: rest else (k2, v2) :: dictInsert rest k v

/-- Column index of the Message column. -/
def MESSAGE_IDX : Nat := 6

/-- The reuse test of main: an entry exists, both staleness keys are equal
to the observed ones, and the stored row is a long-enough list whose
Message column is empty. (The isinstance check of the source is carried
by the typed row.) -/
def use_cached (cached : Option CacheEntry) (repo_upd pr_upd : String) : Bool :=
  match cached with
  | none => false
  | some e =>
    decide (e.repo_updated_at = repo_upd ∧ e.pr_updated_at = pr_upd
      ∧ MESSAGE_IDX < e.row.length ∧ e.row.getD MESSAGE_IDX "?" = "")

/-- Network calls build_row makes for one repository: the commits fetch,
a status fetch when a sha was found, and with a feedback PR the reviews
and comments fetches plus one reactions fetch per comment the reactions
pass does not skip. -/
def buildRowCalls (repo : RepoObj) (pr_num : Option Nat) (t : Thread) : Nat :=
  let scan := studentScan repo t.commits
  1 + (match scan.sha with | some _ => 1 | none => 0)
    + (match pr_num with
       | none => 0
       | some _ =>
         2 + (reactionsPass (commentsPass (wmAfterReviews (reviewsOf t)) (commentsOf t))
                (commentsOf t)).2)

/-- What processing one matching repository produces: the emitted row, the
entry written to the new cache (when one is), whether the cache was
reused, and the network calls made (the feedback-PR probe always counts
one; the build_row calls only on a miss). -/
structure RepoOut where
  row : List String
  stored : Option CacheEntry
  hit : Bool
  prCalls : Nat
  buildCalls : Nat
deriving DecidableEq

/-- Embeds the per-repository body of the main loop: probe the feedback
PR, test the cache, and either replay the stored row or build and
conditionally store a fresh one. -/
def repoStep (u : Upstream) (cache : Cache) (r : RepoObj) : RepoOut :=
  if use_cached (cacheLookup cache r.name) r.updated_at (feedback_pr_meta u r.name).2 then
    { row := ((cacheLookup cache r.name).getD ⟨"", "", []⟩).row,
      stored := some ((cacheLookup cache r.name).getD ⟨"", "", []⟩),
      hit := true, prCalls := 1, buildCalls := 0 }
  else
    { row := build_row r (feedback_pr_meta u r.name).1 (feedback_pr_meta u r.name).2
        (u.threadOf r.name),
      stored := if (build_row r (feedback_pr_meta u r.name).1 (feedback_pr_meta u r.name).2
            (u.threadOf r.name)).getD MESSAGE_IDX "?" = "" then
          some ⟨r.updated_at, (feedback_pr_meta u r.name).2,
            build_row r (feedback_pr_meta u r.name).1 (feedback_pr_meta u r.name).2
              (u.threadOf r.name)⟩
        else none,
      hit := false,
      prCalls := 1,
      buildCalls := buildRowCalls r (feedback_pr_meta u r.name).1 (u.threadOf r.name) }

/-- The accumulated state of the run: output rows (header included), the new
cache document, and the network-call counters. -/
structure RunState where
  rows : List (List String)
  new_cache : Cache
  prCalls : Nat
  buildCalls : Nat

/-- Fold the outputs of one repository into the run state. -/
def applyOut (st : RunState) (name : String) (o : RepoOut) : RunState :=
  { rows := st.rows ++ [o.row],
    new_cache := match o.stored with
                 | some e => dictInsert st.new_cache name e
                 | none => st.new_cache,
    prCalls := st.prCalls + o.prCalls,
    buildCalls := st.buildCalls + o.buildCalls }

/-- One repository of a page: non-matching names are skipped untouched;
a matching one contributes its outputs, and clears may_stop unless it was
a cache hit. -/
def pageStep (u : Upstream) (pat : String → Bool) (cache : Cache)
    (acc : RunState × Bool) (r : RepoObj) : RunState × Bool :=
  if pat r.name then
    let o := repoStep u cache r
    (applyOut acc.1 r.name o, acc.2 && o.hit)
  else acc

/-- One listing page, with may_stop starting true. -/
def processPage (u : Upstream) (pat : String → Bool) (cache : Cache)
    (st : RunState) (repos : List RepoObj) : RunState × Bool :=
  repos.foldl (pageStep u pat cache) (st, true)

/-- The pagination loop of main: an empty page stops, and a page whose
every considered repository was a cache hit stops (the early-stop
heuristic). The cache consulted is the one read at start, never the one
being built. -/
def runLoop (u : Upstream) (pat : String → Bool) (cache : Cache) :
    List (List RepoObj) → RunState → RunState
  | [], st => st
  | page :: rest, st =>
    if page = [] then st
    else
      if (processPage u pat cache st page).2 then (processPage u pat cache st page).1
      else runLoop u pat cache rest (processPage u pat cache st page).1

/-- The header row main seeds the table with. -/
def headerRow : List String :=
  ["Repo", "Student", "Last Commit Date", "Health", "Review Status", "Review Date",
   "Message"]

/-- The starting run state: just the header, an empty new cache. -/
def initState : RunState :=
  { rows := [headerRow], new_cache := [], prCalls := 0, buildCalls := 0 }

/-- One whole run of the fetch-and-cache phase of main over the given upstream,
starting from the persisted cache read at startup; the resulting
new_cache is what save_cache persists for the next run. -/
def runOnce (u : Upstream) (pat : String → Bool) (cache : Cache) : RunState :=
  runLoop u pat cache u.pages initState

-- ─── monotonicity lemmas about the watermark passes ───

theorem strLe_iff_not_lt {a b : String} : strLe a b = true ↔ strLt b a = false := by
  simp [strLe, strLt, Bool.not_eq_true']

theorem pyMaxReview_le (cur : Review) (l : List Review) :
    strLe cur.submitted_at (pyMaxReview cur l).submitted_at = true := by
  induction l generalizing cur with
  | nil => exact strLe_refl _
  | cons x xs ih =>
    simp only [pyMaxReview]
    refine strLe_trans ?_ (ih _)
    by_cases h : strLt cur.submitted_at x.submitted_at = true
    · rw [if_pos h]; exact strLt_le h
    · rw [if_neg h]; exact strLe_refl _

theorem pyMaxReview_mem_le {l : List Review} {x : Review} (hx : x ∈ l) (cur : Review) :
    strLe x.submitted_at (pyMaxReview cur l).submitted_at = true := by
  induction l generalizing cur with
  | nil => cases hx
  | cons y ys ih =>
    simp only [pyMaxReview]
    rcases List.mem_cons.mp hx with rfl | hys
    · refine strLe_trans ?_ (pyMaxReview_le _ _)
      by_cases h : strLt cur.submitted_at x.submitted_at = true
      · rw [if_pos h]; exact strLe_refl _
      · rw [if_neg h]; exact strLt_false_le (eq_false_of_ne_true h)
    · exact ih hys _

theorem pyMaxReview_mem (cur : Review) (l : List Review) :
    pyMaxReview cur l ∈ cur :: l := by
  induction l generalizing cur with
  | nil => exact List.mem_singleton.mpr rfl
  | cons x xs ih =>
    simp only [pyMaxReview]
    rcases List.mem_cons.mp (ih (if strLt cur.submitted_at x.submitted_at then x else cur))
      with heq | hmem
    · rw [heq]
      by_cases h : strLt cur.submitted_at x.submitted_at = true
      · rw [if_pos h]; exact List.mem_cons_of_mem _ (List.mem_cons_self _ _)
      · rw [if_neg h]; exact List.mem_cons_self _ _
    · exact List.mem_cons_of_mem _ (List.mem_cons_of_mem _ hmem)

theorem lastMentorReview_is_mentor {rs : List Review} {last : Review}
    (h : lastMentorReview rs = some last) :
    last ∈ rs ∧ isMentor last.author = true := by
  unfold lastMentorReview at h
  cases hf : rs.filter (fun rv => isMentor rv.author) with
  | nil => rw [hf] at h; cases h
  | cons r rest =>
    rw [hf] at h
    have hmem : last ∈ r :: rest := by
      have hm := pyMaxReview_mem r rest
      have heq : pyMaxReview r rest = last := by injection h
      rw [heq] at hm
      exact hm
    have hmem2 : last ∈ rs.filter (fun rv => isMentor rv.author) := by rw [hf]; exact hmem
    exact ⟨(List.mem_filter.mp hmem2).1, (List.mem_filter.mp hmem2).2⟩

theorem lastMentorReview_ge {rs : List Review} {rv : Review} (hrv : rv ∈ rs)
    (hm : isMentor rv.author = true) :
    ∃ last, lastMentorReview rs = some last
      ∧ strLe rv.submitted_at last.submitted_at = true := by
  unfold lastMentorReview
  have hmem : rv ∈ rs.filter (fun r => isMentor r.author) := List.mem_filter.mpr ⟨hrv, hm⟩
  cases hf : rs.filter (fun r => isMentor r.author) with
  | nil => rw [hf] at hmem; cases hmem
  | cons r rest =>
    rw [hf] at hmem
    refine ⟨pyMaxReview r rest, rfl, ?_⟩
    rcases List.mem_cons.mp hmem with rfl | hrest
    · exact pyMaxReview_le _ _
    · exact pyMaxReview_mem_le hrest _

theorem commentsPass_le (w : String) (cs : List Comment) :
    strLe w (commentsPass w cs) = true := by
  induction cs generalizing w with
  | nil => exact strLe_refl w
  | cons c rest ih =>
    simp only [commentsPass, List.foldl_cons]
    refine strLe_trans (b := commentStep w c) ?_ (ih _)
    unfold commentStep
    by_cases h : (isMentor c.author && strLt w c.created_at) = true
    · rw [if_pos h]; exact strLt_le (by simpa using h : _ ∧ _).2
    · rw [if_neg h]; exact strLe_refl w

theorem commentsPass_mentor {cs : List Comment} {c : Comment} (hc : c ∈ cs)
    (hm : isMentor c.author = true) (w : String) :
    strLe c.created_at (commentsPass w cs) = true := by
  induction cs generalizing w with
  | nil => cases hc
  | cons d rest ih =>
    simp only [commentsPass, List.foldl_cons]
    rcases List.mem_cons.mp hc with rfl | hcrest
    · refine strLe_trans ?_ (commentsPass_le _ _)
      unfold commentStep
      by_cases hlt : strLt w c.created_at = true
      · rw [if_pos (by rw [hm, hlt]; rfl)]; exact strLe_refl _
      · have hlt2 : strLt w c.created_at = false := eq_false_of_ne_true hlt
        rw [if_neg (by rw [hm, hlt2]; simp)]
        exact strLt_false_le hlt2
    · exact ih hcrest _

theorem firstQualifying_lt {w : String} {l : List Reaction} {tv : String}
    (h : firstQualifyingReaction w l = some tv) : strLt w tv = true := by
  induction l with
  | nil => cases h
  | cons rx rest ih =>
    simp only [firstQualifyingReaction] at h
    by_cases hc : (isMentor rx.author && strLt w rx.created_at) = true
    · rw [if_pos hc] at h
      have heq : rx.created_at = tv := by injection h
      rw [← heq]
      exact (by simpa using hc : _ ∧ _).2
    · rw [if_neg hc] at h
      exact ih h

theorem reactStep_le (acc : String × Nat) (c : Comment) :
    strLe acc.1 (reactStep acc c).1 = true := by
  unfold reactStep
  by_cases h : (isMentor c.author || strLe c.created_at acc.1) = true
  · rw [if_pos h]; exact strLe_refl _
  · rw [if_neg h]
    cases hf : firstQualifyingReaction acc.1 (reactionsOf c) with
    | none => exact strLe_refl _
    | some tv => exact strLt_le (firstQualifying_lt hf)

theorem reactionsPass_foldl_le (cs : List Comment) (acc : String × Nat) :
    strLe acc.1 (cs.foldl reactStep acc).1 = true := by
  induction cs generalizing acc with
  | nil => exact strLe_refl _
  | cons c rest ih =>
    simp only [List.foldl_cons]
    exact strLe_trans (reactStep_le acc c) (ih _)

theorem reactionsPass_le (w : String) (cs : List Comment) :
    strLe w (reactionsPass w cs).1 = true :=
  reactionsPass_foldl_le cs (w, 0)

-- ─── C1: watermark monotonicity ───

/-- C1 (counterexample): the claim that the final mentorLastSeen watermark
is always at least the epoch sentinel and at least every mentor-authored
review, comment and reaction timestamp in the input is false. On this
thread the reviews pass overwrites the sentinel with a mentor review
submitted before the epoch, so the final watermark is below the sentinel;
and a mentor reaction timestamped 2000 sits on a non-mentor comment that
the reactions pass skips (the comment is not after the watermark), so the
watermark also fails to dominate that mentor reaction. -/
theorem C1_watermark_counterexample :
    mentorLastSeenFinal [⟨"kc8se", "COMMENTED", "1969-12-31T00:00:00Z"⟩]
        [⟨"alice", "1960-01-01T00:00:00Z",
          Except.ok [⟨"kc8se", "2000-01-01T00:00:00Z"⟩]⟩]
      = "1969-12-31T00:00:00Z"
    ∧ strLe EPOCH
        (mentorLastSeenFinal [⟨"kc8se", "COMMENTED", "1969-12-31T00:00:00Z"⟩]
          [⟨"alice", "1960-01-01T00:00:00Z",
            Except.ok [⟨"kc8se", "2000-01-01T00:00:00Z"⟩]⟩]) = false
    ∧ (∃ c ∈ [(⟨"alice", "1960-01-01T00:00:00Z",
            Except.ok [⟨"kc8se", "2000-01-01T00:00:00Z"⟩]⟩ : Comment)],
        ∃ rx ∈ reactionsOf c, isMentor rx.author = true
          ∧ strLe rx.created_at
              (mentorLastSeenFinal [⟨"kc8se", "COMMENTED", "1969-12-31T00:00:00Z"⟩]
                [⟨"alice", "1960-01-01T00:00:00Z",
                  Except.ok [⟨"kc8se", "2000-01-01T00:00:00Z"⟩]⟩]) = false) := by
  decide

/-- C1 (amended): provided every mentor-authored review is timestamped at
or after the epoch sentinel (true of all real ISO-8601 API timestamps),
the final mentorLastSeen watermark is at least the epoch sentinel, at
least the submitted-at of every mentor-authored review, and at least
the created-at of every mentor-authored comment. Mentor-authored reaction timestamps
are not always dominated: a reaction only advances the watermark when it
is the first qualifying one on a non-mentor comment still unseen when the
reactions pass reaches it. -/
theorem C1_watermark_amended (rs : List Review) (cs : List Comment)
    (h : ∀ rv ∈ rs, isMentor rv.author = true → strLe EPOCH rv.submitted_at = true) :
    strLe EPOCH (mentorLastSeenFinal rs cs) = true
    ∧ (∀ rv ∈ rs, isMentor rv.author = true →
        strLe rv.submitted_at (mentorLastSeenFinal rs cs) = true)
    ∧ (∀ c ∈ cs, isMentor c.author = true →
        strLe c.created_at (mentorLastSeenFinal rs cs) = true) := by
  have hwr : strLe (wmAfterReviews rs) (mentorLastSeenFinal rs cs) = true := by
    unfold mentorLastSeenFinal
    exact strLe_trans (commentsPass_le _ _) (reactionsPass_le _ _)
  refine ⟨?_, ?_, ?_⟩
  · refine strLe_trans ?_ hwr
    unfold wmAfterReviews
    cases hLM : lastMentorReview rs with
    | none => exact strLe_refl _
    | some last =>
      obtain ⟨hmem, hm⟩ := lastMentorReview_is_mentor hLM
      exact h last hmem hm
  · intro rv hrv hm
    obtain ⟨last, hLM, hle⟩ := lastMentorReview_ge hrv hm
    refine strLe_trans (strLe_trans hle ?_) hwr
    unfold wmAfterReviews
    rw [hLM]
    exact strLe_refl _
  · intro c hc hm
    unfold mentorLastSeenFinal
    exact strLe_trans (commentsPass_mentor hc hm _) (reactionsPass_le _ _)

/-- C1 (witness): the amended watermark theorem applied to the rereview
scenario thread of the spec. -/
theorem C1_watermark_witness :
    strLe EPOCH
      (mentorLastSeenFinal [⟨"kc8se", "CHANGES_REQUESTED", "2024-02-05T00:00:00Z"⟩]
        [⟨"alice", "2024-02-11T00:00:00Z", Except.ok []⟩]) = true
    ∧ (∀ rv ∈ [(⟨"kc8se", "CHANGES_REQUESTED", "2024-02-05T00:00:00Z"⟩ : Review)],
        isMentor rv.author = true →
        strLe rv.submitted_at
          (mentorLastSeenFinal [⟨"kc8se", "CHANGES_REQUESTED", "2024-02-05T00:00:00Z"⟩]
            [⟨"alice", "2024-02-11T00:00:00Z", Except.ok []⟩]) = true)
    ∧ (∀ c ∈ [(⟨"alice", "2024-02-11T00:00:00Z", Except.ok []⟩ : Comment)],
        isMentor c.author = true →
        strLe c.created_at
          (mentorLastSeenFinal [⟨"kc8se", "CHANGES_REQUESTED", "2024-02-05T00:00:00Z"⟩]
            [⟨"alice", "2024-02-11T00:00:00Z", Except.ok []⟩]) = true) :=
  C1_watermark_amended
    [⟨"kc8se", "CHANGES_REQUESTED", "2024-02-05T00:00:00Z"⟩]
    [⟨"alice", "2024-02-11T00:00:00Z", Except.ok []⟩]
    (by decide)

-- ─── C2: pending-message flag ───

theorem msgFlag_iff {rs : List Review} {cs : List Comment} :
    msgFlag rs cs = true
      ↔ ∃ c ∈ cs, isMentor c.author = false
          ∧ strLt (mentorLastSeenFinal rs cs) c.created_at = true := by
  simp [msgFlag, List.any_eq_true, Bool.and_eq_true, Bool.not_eq_true']

/-- C2 (confirmed): for a thread with a feedback PR, the Message
cell of the row reads "Message" exactly when some comment not authored by the mentor
has created-at strictly after the final mentorLastSeen watermark computed
by the three passes. -/
theorem C2_pending_message_iff (repo : RepoObj) (k : Nat) (pu : String) (t : Thread) :
    (build_row repo (some k) pu t).getD MESSAGE_IDX "?" = "Message"
      ↔ ∃ c ∈ commentsOf t, isMentor c.author = false
          ∧ strLt (mentorLastSeenFinal (reviewsOf t) (commentsOf t)) c.created_at = true := by
  have hcell : (build_row repo (some k) pu t).getD MESSAGE_IDX "?"
      = (if msgFlag (reviewsOf t) (commentsOf t) then "Message" else "") := rfl
  rw [hcell]
  by_cases hf : msgFlag (reviewsOf t) (commentsOf t) = true
  · rw [if_pos hf]
    exact iff_of_true rfl (msgFlag_iff.mp hf)
  · rw [if_neg hf]
    refine iff_of_false (by decide) ?_
    intro hex
    exact hf (msgFlag_iff.mpr hex)

-- ─── C6: rereview detection ───

/-- C6 (confirmed): with a student commit found and the latest mentor
review in state CHANGES_REQUESTED, the Review Status of the row is Rereview
when the newest commit timestamp is strictly after the submitted-at of
that review, and CR when it is at or before it. -/
theorem C6_rereview (repo : RepoObj) (k : Nat) (pu : String) (t : Thread) (last : Review)
    (hs : (studentScan repo t.commits).student ≠ "")
    (hl : lastMentorReview (reviewsOf t) = some last)
    (hcr : last.state = "CHANGES_REQUESTED") :
    (strLt last.submitted_at (studentScan repo t.commits).latest_iso = true →
      (build_row repo (some k) pu t).getD 4 "?" = "Rereview")
    ∧ (strLe (studentScan repo t.commits).latest_iso last.submitted_at = true →
      (build_row repo (some k) pu t).getD 4 "?" = "CR") := by
  have hrow : (build_row repo (some k) pu t).getD 4 "?"
      = reviewStatus (studentScan repo t.commits).student (lastMentorReview (reviewsOf t))
          (studentScan repo t.commits).latest_iso := rfl
  rw [hrow, hl]
  simp only [reviewStatus]
  rw [if_neg hs, hcr]
  rw [if_neg (by decide : ¬ ("CHANGES_REQUESTED" : String) = "APPROVED"), if_pos rfl]
  constructor
  · intro h
    rw [if_pos h]
  · intro h
    rw [if_neg (by rw [strLe_iff_not_lt.mp h]; exact Bool.false_ne_true)]

/-- C6 (witness): the rereview scenario of the spec, student push after the
ChangesRequested review. -/
theorem C6_rereview_witness :
    (build_row ⟨"alice-lab1", "2024-01-01T00:00:00Z", "2024-03-01T00:00:00Z", some "main"⟩
      (some 1) "2024-03-01T00:00:00Z"
      ⟨Except.ok [⟨some "alice", "alice", "2024-02-10T00:00:00Z", "abc"⟩],
       Except.error (),
       Except.ok [⟨"kc8se", "CHANGES_REQUESTED", "2024-02-05T00:00:00Z"⟩],
       Except.ok []⟩).getD 4 "?" = "Rereview" :=
  (C6_rereview ⟨"alice-lab1", "2024-01-01T00:00:00Z", "2024-03-01T00:00:00Z", some "main"⟩
    1 "2024-03-01T00:00:00Z"
    ⟨Except.ok [⟨some "alice", "alice", "2024-02-10T00:00:00Z", "abc"⟩],
     Except.error (),
     Except.ok [⟨"kc8se", "CHANGES_REQUESTED", "2024-02-05T00:00:00Z"⟩],
     Except.ok []⟩
    ⟨"kc8se", "CHANGES_REQUESTED", "2024-02-05T00:00:00Z"⟩
    (by decide) (by decide) rfl).1 (by decide)

-- ─── C7: unreviewed classification ───

/-- C7 (counterexample): a repository with a student commit but no
feedback PR at all gets an empty Review Status, not Unreviewed: with
pr_num absent the whole review block of build_row is skipped. -/
theorem C7_unreviewed_counterexample :
    (studentScan ⟨"lab1", "2024-01-01T00:00:00Z", "2024-01-02T00:00:00Z", some "main"⟩
        (Except.ok [⟨some "alice", "alice", "2024-01-05T00:00:00Z", "abc"⟩])).student
      = "alice"
    ∧ (build_row ⟨"lab1", "2024-01-01T00:00:00Z", "2024-01-02T00:00:00Z", some "main"⟩
        none ""
        ⟨Except.ok [⟨some "alice", "alice", "2024-01-05T00:00:00Z", "abc"⟩],
         Except.error (), Except.error (), Except.error ()⟩).getD 4 "?" = ""
    ∧ (build_row ⟨"lab1", "2024-01-01T00:00:00Z", "2024-01-02T00:00:00Z", some "main"⟩
        none ""
        ⟨Except.ok [⟨some "alice", "alice", "2024-01-05T00:00:00Z", "abc"⟩],
         Except.error (), Except.error (), Except.error ()⟩).getD 4 "?"
      ≠ "Unreviewed" := by
  decide

/-- C7 (amended): when a feedback PR exists and the mentor never submitted
a review on it, a repository with a student commit is classified
Unreviewed; when no feedback PR exists, the Review Status is the empty
string even if a student commit was found. -/
theorem C7_unreviewed_amended (repo : RepoObj) (k : Nat) (pu : String) (t : Thread)
    (hnr : lastMentorReview (reviewsOf t) = none)
    (hs : (studentScan repo t.commits).student ≠ "") :
    (build_row repo (some k) pu t).getD 4 "?" = "Unreviewed"
    ∧ ∀ (pu2 : String) (t2 : Thread), (build_row repo none pu2 t2).getD 4 "?" = "" := by
  constructor
  · have hrow : (build_row repo (some k) pu t).getD 4 "?"
        = reviewStatus (studentScan repo t.commits).student (lastMentorReview (reviewsOf t))
            (studentScan repo t.commits).latest_iso := rfl
    rw [hrow, hnr]
    simp only [reviewStatus]
    rw [if_neg hs]
  · intro pu2 t2
    rfl

/-- C7 (witness): the amended classification on a concrete thread whose
feedback PR has no reviews. -/
theorem C7_unreviewed_witness :
    (build_row ⟨"lab1", "2024-01-01T00:00:00Z", "2024-01-02T00:00:00Z", some "main"⟩
        (some 2) "2024-01-06T00:00:00Z"
        ⟨Except.ok [⟨some "alice", "alice", "2024-01-05T00:00:00Z", "abc"⟩],
         Except.error (), Except.ok [⟨"alice", "COMMENTED", "2024-01-05T01:00:00Z"⟩],
         Except.ok []⟩).getD 4 "?" = "Unreviewed"
    ∧ ∀ (pu2 : String) (t2 : Thread),
        (build_row ⟨"lab1", "2024-01-01T00:00:00Z", "2024-01-02T00:00:00Z", some "main"⟩
          none pu2 t2).getD 4 "?" = "" :=
  C7_unreviewed_amended ⟨"lab1", "2024-01-01T00:00:00Z", "2024-01-02T00:00:00Z", some "main"⟩
    2 "2024-01-06T00:00:00Z"
    ⟨Except.ok [⟨some "alice", "alice", "2024-01-05T00:00:00Z", "abc"⟩],
     Except.error (), Except.ok [⟨"alice", "COMMENTED", "2024-01-05T01:00:00Z"⟩],
     Except.ok []⟩
    (by decide) (by decide)

-- ─── cache-invariant lemmas (towards C3) ───

/-- Every entry of a cache document has an empty Message cell. -/
abbrev msgOK (m : Cache) : Prop := ∀ p ∈ m, p.2.row.getD MESSAGE_IDX "?" = ""

theorem msgOK_nil : msgOK [] := by
  intro p hp
  cases hp

theorem msgOK_dictInsert {k : String} {v : CacheEntry}
    (hv : v.row.getD MESSAGE_IDX "?" = "") :
    ∀ m : Cache, msgOK m → msgOK (dictInsert m k v) := by
  intro m
  induction m with
  | nil =>
    intro _ p hp
    simp only [dictInsert, List.mem_singleton] at hp
    rw [hp]
    exact hv
  | cons a rest ih =>
    obtain ⟨k2, v2⟩ := a
    intro hm p hp
    simp only [dictInsert] at hp
    by_cases hk : k2 = k
    · rw [if_pos hk] at hp
      rcases List.mem_cons.mp hp with rfl | hrest
      · exact hv
      · exact hm _ (List.mem_cons_of_mem _ hrest)
    · rw [if_neg hk] at hp
      rcases List.mem_cons.mp hp with rfl | hrest
      · exact hm _ (List.mem_cons_self _ _)
      · exact ih (fun q hq => hm q (List.mem_cons_of_mem _ hq)) _ hrest

theorem repoStep_stored_msg {u : Upstream} {cache : Cache} {r : RepoObj} {e : CacheEntry}
    (h : (repoStep u cache r).stored = some e) :
    e.row.getD MESSAGE_IDX "?" = "" := by
  unfold repoStep at h
  by_cases hc : use_cached (cacheLookup cache r.name) r.updated_at
      (feedback_pr_meta u r.name).2 = true
  · rw [if_pos hc] at h
    have h2 : some ((cacheLookup cache r.name).getD ⟨"", "", []⟩) = some e := h
    cases hl : cacheLookup cache r.name with
    | none => rw [hl] at hc; cases hc
    | some e0 =>
      rw [hl] at h2 hc
      have he : e0 = e := by injection h2
      simp only [use_cached, decide_eq_true_eq] at hc
      rw [← he]
      exact hc.2.2.2
  · rw [if_neg hc] at h
    have h2 : (if (build_row r (feedback_pr_meta u r.name).1 (feedback_pr_meta u r.name).2
          (u.threadOf r.name)).getD MESSAGE_IDX "?" = "" then
        (some ⟨r.updated_at, (feedback_pr_meta u r.name).2,
          build_row r (feedback_pr_meta u r.name).1 (feedback_pr_meta u r.name).2
            (u.threadOf r.name)⟩ : Option CacheEntry)
      else none) = some e := h
    by_cases hrow : (build_row r (feedback_pr_meta u r.name).1 (feedback_pr_meta u r.name).2
        (u.threadOf r.name)).getD MESSAGE_IDX "?" = ""
    · rw [if_pos hrow] at h2
      have he : (⟨r.updated_at, (feedback_pr_meta u r.name).2,
          build_row r (feedback_pr_meta u r.name).1 (feedback_pr_meta u r.name).2
            (u.threadOf r.name)⟩ : CacheEntry) = e := by injection h2
      rw [← he]
      exact hrow
    · rw [if_neg hrow] at h2
      cases h2

theorem pageStep_msgOK {u : Upstream} {pat : String → Bool} {cache : Cache}
    {acc : RunState × Bool} {r : RepoObj}
    (h : msgOK acc.1.new_cache) : msgOK (pageStep u pat cache acc r).1.new_cache := by
  unfold pageStep
  by_cases hp : pat r.name = true
  · rw [if_pos hp]
    show msgOK (applyOut acc.1 r.name (repoStep u cache r)).new_cache
    unfold applyOut
    cases hs : (repoStep u cache r).stored with
    | none => exact h
    | some e => exact msgOK_dictInsert (repoStep_stored_msg hs) _ h
  · rw [if_neg hp]
    exact h

theorem foldl_pageStep_msgOK {u : Upstream} {pat : String → Bool} {cache : Cache} :
    ∀ (repos : List RepoObj) (acc : RunState × Bool), msgOK acc.1.new_cache →
      msgOK (repos.foldl (pageStep u pat cache) acc).1.new_cache := by
  intro repos
  induction repos with
  | nil => intro acc h; exact h
  | cons r rest ih => intro acc h; exact ih _ (pageStep_msgOK h)

theorem runLoop_msgOK {u : Upstream} {pat : String → Bool} {cache : Cache} :
    ∀ (pages : List (List RepoObj)) (st : RunState), msgOK st.new_cache →
      msgOK (runLoop u pat cache pages st).new_cache := by
  intro pages
  induction pages with
  | nil => intro st h; exact h
  | cons page rest ih =>
    intro st h
    unfold runLoop
    by_cases hp : page = []
    · rw [if_pos hp]; exact h
    · rw [if_neg hp]
      by_cases hs : (processPage u pat cache st page).2 = true
      · rw [if_pos hs]; exact foldl_pageStep_msgOK page (st, true) h
      · rw [if_neg hs]; exact ih _ (foldl_pageStep_msgOK page (st, true) h)

-- ─── C3: pending flag forces recompute ───

/-- C3 (confirmed): after any run, every entry of the persisted cache has
an empty Message cell (a hit replays an entry the reuse test already
required empty, a miss stores only an empty-Message row); and an entry
whose stored row has the flag set never passes the reuse test, whatever
the observed timestamps, so such a repository is always recomputed. -/
theorem C3_pending_cache_invariant (u : Upstream) (pat : String → Bool) (c0 : Cache) :
    (∀ p ∈ (runOnce u pat c0).new_cache, p.2.row.getD MESSAGE_IDX "?" = "")
    ∧ (∀ (e : CacheEntry) (repo_upd pr_upd : String),
        e.row.getD MESSAGE_IDX "?" ≠ "" →
        use_cached (some e) repo_upd pr_upd = false) := by
  constructor
  · exact runLoop_msgOK u.pages initState msgOK_nil
  · intro e ru pu hne
    simp only [use_cached, decide_eq_false_iff_not]
    intro hall
    exact hne hall.2.2.2

/-- C3 (witness): a planted entry whose row says Message is rejected by
the reuse test even with byte-equal timestamps, via the invariant theorem
applied at a trivial upstream. -/
theorem C3_pending_cache_invariant_witness :
    use_cached (some ⟨"2024-01-02T00:00:00Z", "",
        ["r1", "alice", "01/01 00:00", "", "Unreviewed", "", "Message"]⟩)
      "2024-01-02T00:00:00Z" "" = false :=
  (C3_pending_cache_invariant
      ⟨[], fun _ => Except.error (),
       fun _ => ⟨Except.error (), Except.error (), Except.error (), Except.error ()⟩⟩
      (fun _ => true) []).2
    ⟨"2024-01-02T00:00:00Z", "",
      ["r1", "alice", "01/01 00:00", "", "Unreviewed", "", "Message"]⟩
    "2024-01-02T00:00:00Z" "" (by decide)

-- ─── C4: cache reuse condition and verbatim forwarding ───

/-- C4 (confirmed): for an entry stored for a repository that satisfies
the persistence invariant of C3 (a full row with an empty Message cell,
which is all the program ever persists), the entry is reused exactly when
the observed repository-updated and feedback-PR-updated timestamps equal
the stored ones (the PR timestamp being the empty string when no feedback
PR exists); and on reuse the stored row is emitted verbatim, the entry is
copied unchanged into the new cache, and no row-building fetch happens. -/
theorem C4_reuse_iff_verbatim (u : Upstream) (cache : Cache) (r : RepoObj)
    (e : CacheEntry) (hl : cacheLookup cache r.name = some e)
    (hlen : MESSAGE_IDX < e.row.length) (hmsg : e.row.getD MESSAGE_IDX "?" = "") :
    (use_cached (cacheLookup cache r.name) r.updated_at (feedback_pr_meta u r.name).2 = true
      ↔ (e.repo_updated_at = r.updated_at
          ∧ e.pr_updated_at = (feedback_pr_meta u r.name).2))
    ∧ (use_cached (cacheLookup cache r.name) r.updated_at
          (feedback_pr_meta u r.name).2 = true →
        (repoStep u cache r).row = e.row
          ∧ (repoStep u cache r).stored = some e
          ∧ (repoStep u cache r).buildCalls = 0) := by
  have hiff : use_cached (cacheLookup cache r.name) r.updated_at
      (feedback_pr_meta u r.name).2 = true
      ↔ (e.repo_updated_at = r.updated_at
          ∧ e.pr_updated_at = (feedback_pr_meta u r.name).2) := by
    rw [hl]
    simp only [use_cached, decide_eq_true_eq]
    constructor
    · exact fun h => ⟨h.1, h.2.1⟩
    · exact fun h => ⟨h.1, h.2, hlen, hmsg⟩
  refine ⟨hiff, fun hc => ?_⟩
  unfold repoStep
  rw [if_pos hc, hl]
  exact ⟨rfl, rfl, rfl⟩

/-- C4 (witness): a concrete stored entry replayed verbatim when both
timestamps match, with no feedback PR on either observation. -/
theorem C4_reuse_iff_verbatim_witness :
    (use_cached
        (cacheLookup [("r1", ⟨"2024-01-02T00:00:00Z", "",
            ["r1", "", "01/01 00:00", "", "", "", ""]⟩)] "r1")
        "2024-01-02T00:00:00Z"
        (feedback_pr_meta
          ⟨[], fun _ => Except.ok [],
           fun _ => ⟨Except.error (), Except.error (), Except.error (), Except.error ()⟩⟩
          "r1").2 = true
      ↔ (("2024-01-02T00:00:00Z" : String) = "2024-01-02T00:00:00Z"
          ∧ ("" : String) = (feedback_pr_meta
              ⟨[], fun _ => Except.ok [],
               fun _ => ⟨Except.error (), Except.error (), Except.error (),
                 Except.error ()⟩⟩ "r1").2)) := by
  have h := C4_reuse_iff_verbatim
    ⟨[], fun _ => Except.ok [],
     fun _ => ⟨Except.error (), Except.error (), Except.error (), Except.error ()⟩⟩
    [("r1", ⟨"2024-01-02T00:00:00Z", "", ["r1", "", "01/01 00:00", "", "", "", ""]⟩)]
    ⟨"r1", "2024-01-01T00:00:00Z", "2024-01-02T00:00:00Z", some "main"⟩
    ⟨"2024-01-02T00:00:00Z", "", ["r1", "", "01/01 00:00", "", "", "", ""]⟩
    (by decide) (by decide) (by decide)
  exact h.1

-- ─── C9: vacuous early stop on a page with no matching repository ───

theorem foldl_pageStep_skip {u : Upstream} {pat : String → Bool} {cache : Cache} :
    ∀ (repos : List RepoObj), (∀ r ∈ repos, pat r.name = false) →
      ∀ acc, repos.foldl (pageStep u pat cache) acc = acc := by
  intro repos
  induction repos with
  | nil => intro _ acc; rfl
  | cons r rest ih =>
    intro h acc
    simp only [List.foldl_cons]
    have hr : pat r.name = false := h r (List.mem_cons_self _ _)
    have hstep : pageStep u pat cache acc r = acc := by
      unfold pageStep
      rw [if_neg (by rw [hr]; exact Bool.false_ne_true)]
    rw [hstep]
    exact ih (fun x hx => h x (List.mem_cons_of_mem _ hx)) acc

/-- C9 (confirmed): a non-empty listing page none of whose repositories
matches the filter leaves the early-stop flag set and the run state
untouched — no cache lookup outcome, no probe or build fetch, no row —
and pagination halts there, so the remaining pages are never examined. -/
theorem C9_vacuous_early_stop (u : Upstream) (pat : String → Bool) (cache : Cache)
    (page : List RepoObj) (rest : List (List RepoObj)) (st : RunState)
    (hne : page ≠ []) (hnm : ∀ r ∈ page, pat r.name = false) :
    (processPage u pat cache st page).2 = true
    ∧ runLoop u pat cache (page :: rest) st = st := by
  have hpp : processPage u pat cache st page = (st, true) :=
    foldl_pageStep_skip page hnm (st, true)
  constructor
  · rw [hpp]
  · unfold runLoop
    rw [if_neg hne, hpp]
    rfl

/-- C9 (witness): a one-repository page that the filter rejects stops the
run with the initial state intact, however many pages follow. -/
theorem C9_vacuous_early_stop_witness :
    runLoop
      ⟨[[⟨"other-repo", "2024-01-01T00:00:00Z", "2024-01-02T00:00:00Z", some "main"⟩],
        [⟨"lab-a", "2024-01-01T00:00:00Z", "2024-01-02T00:00:00Z", some "main"⟩]],
       fun _ => Except.ok [],
       fun _ => ⟨Except.error (), Except.error (), Except.error (), Except.error ()⟩⟩
      (fun name => strLt "lab" name && strLt name "labz")
      []
      [[⟨"other-repo", "2024-01-01T00:00:00Z", "2024-01-02T00:00:00Z", some "main"⟩],
       [⟨"lab-a", "2024-01-01T00:00:00Z", "2024-01-02T00:00:00Z", some "main"⟩]]
      initState = initState :=
  (C9_vacuous_early_stop
    ⟨[[⟨"other-repo", "2024-01-01T00:00:00Z", "2024-01-02T00:00:00Z", some "main"⟩],
      [⟨"lab-a", "2024-01-01T00:00:00Z", "2024-01-02T00:00:00Z", some "main"⟩]],
     fun _ => Except.ok [],
     fun _ => ⟨Except.error (), Except.error (), Except.error (), Except.error ()⟩⟩
    (fun name => strLt "lab" name && strLt name "labz")
    []
    [⟨"other-repo", "2024-01-01T00:00:00Z", "2024-01-02T00:00:00Z", some "main"⟩]
    [[⟨"lab-a", "2024-01-01T00:00:00Z", "2024-01-02T00:00:00Z", some "main"⟩]]
    initState (by decide) (by decide)).2

-- ─── C10: a failed feedback-PR probe collapses to absence ───

/-- C10 (confirmed): a transport error in the feedback-PR probe yields
exactly the no-PR result (no number, empty timestamp), and a cached entry
whose stored PR timestamp is the empty string and whose repository
timestamp matches still passes the reuse test, so the row is reused
despite the failed probe. -/
theorem C10_pr_failure_is_absence (res : Except Unit (List PRInfo))
    (hres : res = Except.error ())
    (e : CacheEntry) (repo_upd : String)
    (h1 : e.repo_updated_at = repo_upd) (h2 : e.pr_updated_at = "")
    (h3 : MESSAGE_IDX < e.row.length) (h4 : e.row.getD MESSAGE_IDX "?" = "") :
    prMetaOf res = (none, "")
    ∧ prMetaOf res = prMetaOf (Except.ok [])
    ∧ use_cached (some e) repo_upd (prMetaOf res).2 = true := by
  subst hres
  refine ⟨rfl, rfl, ?_⟩
  simp only [use_cached, decide_eq_true_eq]
  exact ⟨h1, h2, h3, h4⟩

/-- C10 (witness): a concrete entry with an empty stored PR timestamp is
reused when the probe fails. -/
theorem C10_pr_failure_is_absence_witness :
    use_cached (some ⟨"2024-01-02T00:00:00Z", "",
        ["r1", "", "01/01 00:00", "", "", "", ""]⟩)
      "2024-01-02T00:00:00Z" (prMetaOf (Except.error ())).2 = true :=
  (C10_pr_failure_is_absence (Except.error ()) rfl
    ⟨"2024-01-02T00:00:00Z", "", ["r1", "", "01/01 00:00", "", "", "", ""]⟩
    "2024-01-02T00:00:00Z" rfl rfl (by decide) rfl).2.2

-- ─── lemmas towards C5 (second-run cache behaviour) ───

theorem build_row_length (repo : RepoObj) (pn : Option Nat) (pu : String) (t : Thread) :
    (build_row repo pn pu t).length = 7 := by
  cases pn <;> rfl

theorem repoStep_row_len {u : Upstream} {c0 : Cache} {r : RepoObj} :
    MESSAGE_IDX < (repoStep u c0 r).row.length := by
  unfold repoStep
  by_cases hc : use_cached (cacheLookup c0 r.name) r.updated_at
      (feedback_pr_meta u r.name).2 = true
  · rw [if_pos hc]
    cases hl : cacheLookup c0 r.name with
    | none => rw [hl] at hc; cases hc
    | some e =>
      rw [hl] at hc
      simp only [use_cached, decide_eq_true_eq] at hc
      exact hc.2.2.1
  · rw [if_neg hc]
    show MESSAGE_IDX < (build_row r (feedback_pr_meta u r.name).1
        (feedback_pr_meta u r.name).2 (u.threadOf r.name)).length
    rw [build_row_length]
    decide

theorem repoStep_stored_eq {u : Upstream} {c0 : Cache} {r : RepoObj}
    (hm : (repoStep u c0 r).row.getD MESSAGE_IDX "?" = "") :
    (repoStep u c0 r).stored
      = some ⟨r.updated_at, (feedback_pr_meta u r.name).2, (repoStep u c0 r).row⟩ := by
  by_cases hc : use_cached (cacheLookup c0 r.name) r.updated_at
      (feedback_pr_meta u r.name).2 = true
  · have hrs : repoStep u c0 r
        = { row := ((cacheLookup c0 r.name).getD ⟨"", "", []⟩).row,
            stored := some ((cacheLookup c0 r.name).getD ⟨"", "", []⟩),
            hit := true, prCalls := 1, buildCalls := 0 } := by
      unfold repoStep
      rw [if_pos hc]
    rw [hrs]
    cases hl : cacheLookup c0 r.name with
    | none => rw [hl] at hc; cases hc
    | some e =>
      rw [hl] at hc
      simp only [use_cached, decide_eq_true_eq] at hc
      obtain ⟨h1, h2, _, _⟩ := hc
      show some e = some ⟨r.updated_at, (feedback_pr_meta u r.name).2, e.row⟩
      cases e with
      | mk e1 e2 e3 =>
        simp only at h1 h2
        subst h1
        subst h2
        rfl
  · have hrs : repoStep u c0 r
        = { row := build_row r (feedback_pr_meta u r.name).1 (feedback_pr_meta u r.name).2
              (u.threadOf r.name),
            stored := if (build_row r (feedback_pr_meta u r.name).1
                (feedback_pr_meta u r.name).2 (u.threadOf r.name)).getD
                  MESSAGE_IDX "?" = "" then
                some ⟨r.updated_at, (feedback_pr_meta u r.name).2,
                  build_row r (feedback_pr_meta u r.name).1 (feedback_pr_meta u r.name).2
                    (u.threadOf r.name)⟩
              else none,
            hit := false, prCalls := 1,
            buildCalls := buildRowCalls r (feedback_pr_meta u r.name).1
              (u.threadOf r.name) } := by
      unfold repoStep
      rw [if_neg hc]
    rw [hrs] at hm ⊢
    have hm2 : (build_row r (feedback_pr_meta u r.name).1 (feedback_pr_meta u r.name).2
        (u.threadOf r.name)).getD MESSAGE_IDX "?" = "" := hm
    show (if (build_row r (feedback_pr_meta u r.name).1 (feedback_pr_meta u r.name).2
          (u.threadOf r.name)).getD MESSAGE_IDX "?" = "" then
        (some ⟨r.updated_at, (feedback_pr_meta u r.name).2,
          build_row r (feedback_pr_meta u r.name).1 (feedback_pr_meta u r.name).2
            (u.threadOf r.name)⟩ : Option CacheEntry)
      else none) = _
    rw [if_pos hm2]

theorem use_cached_storedEntry {u : Upstream} {c0 : Cache} {r : RepoObj}
    (hm : (repoStep u c0 r).row.getD MESSAGE_IDX "?" = "") :
    use_cached (some ⟨r.updated_at, (feedback_pr_meta u r.name).2, (repoStep u c0 r).row⟩)
      r.updated_at (feedback_pr_meta u r.name).2 = true := by
  simp only [use_cached, decide_eq_true_eq]
  exact ⟨trivial, trivial, repoStep_row_len, hm⟩

theorem repoStep_hit {u : Upstream} {c1 : Cache} {r : RepoObj} {e : CacheEntry}
    (hl : cacheLookup c1 r.name = some e)
    (hc : use_cached (some e) r.updated_at (feedback_pr_meta u r.name).2 = true) :
    repoStep u c1 r
      = { row := e.row, stored := some e, hit := true, prCalls := 1, buildCalls := 0 } := by
  unfold repoStep
  rw [hl, if_pos hc]
  rfl

theorem cacheLookup_dictInsert_self :
    ∀ (m : Cache) (k : String) (v : CacheEntry),
      cacheLookup (dictInsert m k v) k = some v := by
  intro m
  induction m with
  | nil => intro k v; simp [dictInsert, cacheLookup]
  | cons a rest ih =>
    obtain ⟨k2, v2⟩ := a
    intro k v
    unfold dictInsert
    by_cases hk : k2 = k
    · rw [if_pos hk]
      unfold cacheLookup
      rw [if_pos hk]
    · rw [if_neg hk]
      unfold cacheLookup
      rw [if_neg hk]
      exact ih k v

theorem cacheLookup_dictInsert_ne :
    ∀ (m : Cache) (k : String) (v : CacheEntry) (q : String), k ≠ q →
      cacheLookup (dictInsert m k v) q = cacheLookup m q := by
  intro m
  induction m with
  | nil =>
    intro k v q hk
    unfold dictInsert cacheLookup
    rw [if_neg hk]
    rfl
  | cons a rest ih =>
    obtain ⟨k2, v2⟩ := a
    intro k v q hk
    unfold dictInsert
    by_cases h2 : k2 = k
    · rw [if_pos h2]
      unfold cacheLookup
      rw [if_neg (h2 ▸ hk)]
      rw [if_neg (h2 ▸ hk)]
    · rw [if_neg h2]
      unfold cacheLookup
      by_cases h3 : k2 = q
      · rw [if_pos h3, if_pos h3]
      · rw [if_neg h3, if_neg h3]
        exact ih k v q hk

theorem pageStep_new_cache_of_empty {u : Upstream} {pat : String → Bool} {c0 : Cache}
    {acc : RunState × Bool} {d : RepoObj} (hp : pat d.name = true)
    (hm : (repoStep u c0 d).row.getD MESSAGE_IDX "?" = "") :
    (pageStep u pat c0 acc d).1.new_cache
      = dictInsert acc.1.new_cache d.name
          ⟨d.updated_at, (feedback_pr_meta u d.name).2, (repoStep u c0 d).row⟩ := by
  unfold pageStep
  rw [if_pos hp]
  show (applyOut acc.1 d.name (repoStep u c0 d)).new_cache = _
  unfold applyOut
  show (match (repoStep u c0 d).stored with
    | some e => dictInsert acc.1.new_cache d.name e
    | none => acc.1.new_cache) = _
  rw [repoStep_stored_eq hm]

theorem pageStep_new_cache_untouched {u : Upstream} {pat : String → Bool} {c0 : Cache}
    {acc : RunState × Bool} {d : RepoObj} {q : String} (hq : d.name ≠ q) :
    cacheLookup (pageStep u pat c0 acc d).1.new_cache q
      = cacheLookup acc.1.new_cache q := by
  unfold pageStep
  by_cases hp : pat d.name = true
  · rw [if_pos hp]
    show cacheLookup (applyOut acc.1 d.name (repoStep u c0 d)).new_cache q = _
    unfold applyOut
    show cacheLookup (match (repoStep u c0 d).stored with
      | some e => dictInsert acc.1.new_cache d.name e
      | none => acc.1.new_cache) q = _
    cases hs : (repoStep u c0 d).stored with
    | none => rfl
    | some e => exact cacheLookup_dictInsert_ne _ _ _ _ hq
  · rw [if_neg hp]

theorem foldl_pageStep_lookup_preserve {u : Upstream} {pat : String → Bool} {c0 : Cache} :
    ∀ (repos : List RepoObj) (acc : RunState × Bool) (q : String),
      (∀ r ∈ repos, r.name ≠ q) →
      cacheLookup (repos.foldl (pageStep u pat c0) acc).1.new_cache q
        = cacheLookup acc.1.new_cache q := by
  intro repos
  induction repos with
  | nil => intro acc q _; rfl
  | cons d rest ih =>
    intro acc q h
    simp only [List.foldl_cons]
    rw [ih _ q (fun x hx => h x (List.mem_cons_of_mem _ hx))]
    exact pageStep_new_cache_untouched (h d (List.mem_cons_self _ _))

theorem processPage_lookup {u : Upstream} {pat : String → Bool} {c0 : Cache} :
    ∀ (page : List RepoObj) (acc : RunState × Bool),
      (∀ r ∈ page, pat r.name = true →
        (repoStep u c0 r).row.getD MESSAGE_IDX "?" = "") →
      (page.map RepoObj.name).Nodup →
      ∀ r ∈ page, pat r.name = true →
        cacheLookup (page.foldl (pageStep u pat c0) acc).1.new_cache r.name
          = some ⟨r.updated_at, (feedback_pr_meta u r.name).2, (repoStep u c0 r).row⟩ := by
  intro page
  induction page with
  | nil => intro acc _ _ r hr; cases hr
  | cons d rest ih =>
    intro acc hEmpty hnd r hr hpr
    simp only [List.map_cons, List.nodup_cons] at hnd
    simp only [List.foldl_cons]
    rcases List.mem_cons.mp hr with rfl | hrest
    · have hnin : ∀ x ∈ rest, x.name ≠ r.name := by
        intro x hx he
        exact hnd.1 (he ▸ List.mem_map_of_mem RepoObj.name hx)
      rw [foldl_pageStep_lookup_preserve rest _ r.name hnin]
      rw [pageStep_new_cache_of_empty hpr (hEmpty r (List.mem_cons_self _ _) hpr)]
      exact cacheLookup_dictInsert_self _ _ _
    · exact ih _ (fun x hx hpx => hEmpty x (List.mem_cons_of_mem _ hx) hpx) hnd.2
        r hrest hpr

theorem foldl_pageStep_rows_eq {u : Upstream} {pat : String → Bool} {c0 c1 : Cache} :
    ∀ (page : List RepoObj) (acc1 acc2 : RunState × Bool),
      (∀ r ∈ page, pat r.name = true →
        (repoStep u c1 r).row = (repoStep u c0 r).row) →
      acc2.1.rows = acc1.1.rows →
      (page.foldl (pageStep u pat c1) acc2).1.rows
        = (page.foldl (pageStep u pat c0) acc1).1.rows := by
  intro page
  induction page with
  | nil => intro acc1 acc2 _ h; exact h
  | cons d rest ih =>
    intro acc1 acc2 hrow h
    simp only [List.foldl_cons]
    refine ih _ _ (fun x hx hpx => hrow x (List.mem_cons_of_mem _ hx) hpx) ?_
    unfold pageStep
    by_cases hp : pat d.name = true
    · rw [if_pos hp, if_pos hp]
      show (applyOut acc2.1 d.name (repoStep u c1 d)).rows
        = (applyOut acc1.1 d.name (repoStep u c0 d)).rows
      unfold applyOut
      show acc2.1.rows ++ [(repoStep u c1 d).row]
        = acc1.1.rows ++ [(repoStep u c0 d).row]
      rw [h, hrow d (List.mem_cons_self _ _) hp]
    · rw [if_neg hp, if_neg hp]
      exact h

theorem foldl_pageStep_build_zero {u : Upstream} {pat : String → Bool} {c1 : Cache} :
    ∀ (page : List RepoObj) (acc : RunState × Bool),
      (∀ r ∈ page, pat r.name = true → (repoStep u c1 r).buildCalls = 0) →
      (page.foldl (pageStep u pat c1) acc).1.buildCalls = acc.1.buildCalls := by
  intro page
  induction page with
  | nil => intro acc _; rfl
  | cons d rest ih =>
    intro acc hb
    simp only [List.foldl_cons]
    rw [ih _ (fun x hx hpx => hb x (List.mem_cons_of_mem _ hx) hpx)]
    unfold pageStep
    by_cases hp : pat d.name = true
    · rw [if_pos hp]
      show (applyOut acc.1 d.name (repoStep u c1 d)).buildCalls = acc.1.buildCalls
      unfold applyOut
      show acc.1.buildCalls + (repoStep u c1 d).buildCalls = acc.1.buildCalls
      rw [hb d (List.mem_cons_self _ _) hp]
      exact Nat.add_zero _
    · rw [if_neg hp]

theorem runLoop_single (u : Upstream) (pat : String → Bool) (c : Cache)
    (page : List RepoObj) (st : RunState) :
    runLoop u pat c [page] st
      = if page = [] then st else (processPage u pat c st page).1 := by
  unfold runLoop
  by_cases hp : page = []
  · rw [if_pos hp, if_pos hp]
  · rw [if_neg hp, if_neg hp]
    by_cases hs : (processPage u pat c st page).2 = true
    · rw [if_pos hs]
    · rw [if_neg hs]
      rfl

-- ─── C5: idempotence of reuse ───

/-- C5 (counterexample): with two listing pages of one matching repository
each and no upstream change, the second run is not byte-identical to the
first (the early-stop heuristic ends run two after page one, dropping the
page-two repository from the output), and the second run still performs
per-repository network fetches (the feedback-PR probe runs for every
matching repository before the cache is consulted). -/
theorem C5_idempotence_counterexample :
    ((runOnce
        ⟨[[⟨"lab-a", "2024-01-01T00:00:00Z", "2024-01-02T00:00:00Z", some "main"⟩],
          [⟨"lab-b", "2024-01-01T00:00:00Z", "2024-01-01T12:00:00Z", some "main"⟩]],
         fun _ => Except.ok [],
         fun _ => ⟨Except.ok [], Except.error (), Except.error (), Except.error ()⟩⟩
        (fun _ => true)
        ((runOnce
          ⟨[[⟨"lab-a", "2024-01-01T00:00:00Z", "2024-01-02T00:00:00Z", some "main"⟩],
            [⟨"lab-b", "2024-01-01T00:00:00Z", "2024-01-01T12:00:00Z", some "main"⟩]],
           fun _ => Except.ok [],
           fun _ => ⟨Except.ok [], Except.error (), Except.error (), Except.error ()⟩⟩
          (fun _ => true) []).new_cache)).rows
      ≠ (runOnce
          ⟨[[⟨"lab-a", "2024-01-01T00:00:00Z", "2024-01-02T00:00:00Z", some "main"⟩],
            [⟨"lab-b", "2024-01-01T00:00:00Z", "2024-01-01T12:00:00Z", some "main"⟩]],
           fun _ => Except.ok [],
           fun _ => ⟨Except.ok [], Except.error (), Except.error (), Except.error ()⟩⟩
          (fun _ => true) []).rows)
    ∧ ((runOnce
        ⟨[[⟨"lab-a", "2024-01-01T00:00:00Z", "2024-01-02T00:00:00Z", some "main"⟩],
          [⟨"lab-b", "2024-01-01T00:00:00Z", "2024-01-01T12:00:00Z", some "main"⟩]],
         fun _ => Except.ok [],
         fun _ => ⟨Except.ok [], Except.error (), Except.error (), Except.error ()⟩⟩
        (fun _ => true)
        ((runOnce
          ⟨[[⟨"lab-a", "2024-01-01T00:00:00Z", "2024-01-02T00:00:00Z", some "main"⟩],
            [⟨"lab-b", "2024-01-01T00:00:00Z", "2024-01-01T12:00:00Z", some "main"⟩]],
           fun _ => Except.ok [],
           fun _ => ⟨Except.ok [], Except.error (), Except.error (), Except.error ()⟩⟩
          (fun _ => true) []).new_cache)).prCalls
      + (runOnce
          ⟨[[⟨"lab-a", "2024-01-01T00:00:00Z", "2024-01-02T00:00:00Z", some "main"⟩],
            [⟨"lab-b", "2024-01-01T00:00:00Z", "2024-01-01T12:00:00Z", some "main"⟩]],
           fun _ => Except.ok [],
           fun _ => ⟨Except.ok [], Except.error (), Except.error (), Except.error ()⟩⟩
          (fun _ => true)
          ((runOnce
            ⟨[[⟨"lab-a", "2024-01-01T00:00:00Z", "2024-01-02T00:00:00Z", some "main"⟩],
              [⟨"lab-b", "2024-01-01T00:00:00Z", "2024-01-01T12:00:00Z", some "main"⟩]],
             fun _ => Except.ok [],
             fun _ => ⟨Except.ok [], Except.error (), Except.error (), Except.error ()⟩⟩
            (fun _ => true) []).new_cache)).buildCalls ≠ 0) := by
  decide

/-- C5 (amended): for an upstream whose matching repositories all fit on
one listing page with distinct names, if no row computed by the first run
has the pending-message flag set, then a second run over the unchanged
upstream emits byte-identical output rows and performs zero row-building
fetches — its only per-repository network activity is the feedback-PR
probe that feeds the reuse test. -/
theorem C5_idempotence_amended (u : Upstream) (pat : String → Bool) (c0 : Cache)
    (page : List RepoObj) (hp : u.pages = [page])
    (hnd : (page.map RepoObj.name).Nodup)
    (hEmpty : ∀ r ∈ page, pat r.name = true →
      (repoStep u c0 r).row.getD MESSAGE_IDX "?" = "") :
    (runOnce u pat (runOnce u pat c0).new_cache).rows = (runOnce u pat c0).rows
    ∧ (runOnce u pat (runOnce u pat c0).new_cache).buildCalls = 0 := by
  have hrun : ∀ c : Cache, runOnce u pat c
      = if page = [] then initState else (processPage u pat c initState page).1 := by
    intro c
    unfold runOnce
    rw [hp]
    exact runLoop_single u pat c page initState
  have h1 := hrun c0
  set c1 := (runOnce u pat c0).new_cache with hc1
  have h2 := hrun c1
  by_cases hpe : page = []
  · constructor
    · rw [h2, h1, if_pos hpe, if_pos hpe]
    · rw [h2, if_pos hpe]
      rfl
  · have hlk : ∀ r ∈ page, pat r.name = true →
        cacheLookup c1 r.name
          = some ⟨r.updated_at, (feedback_pr_meta u r.name).2, (repoStep u c0 r).row⟩ := by
      intro r hr hpr
      rw [hc1, h1, if_neg hpe]
      exact processPage_lookup page (initState, true) hEmpty hnd r hr hpr
    have hstep : ∀ r ∈ page, pat r.name = true →
        repoStep u c1 r
          = { row := (repoStep u c0 r).row,
              stored := some ⟨r.updated_at, (feedback_pr_meta u r.name).2,
                (repoStep u c0 r).row⟩,
              hit := true, prCalls := 1, buildCalls := 0 } :=
      fun r hr hpr => repoStep_hit (hlk r hr hpr) (use_cached_storedEntry (hEmpty r hr hpr))
    constructor
    · rw [h2, h1, if_neg hpe, if_neg hpe]
      exact foldl_pageStep_rows_eq page (initState, true) (initState, true)
        (fun r hr hpr => by rw [hstep r hr hpr]) rfl
    · rw [h2, if_neg hpe]
      exact foldl_pageStep_build_zero page (initState, true)
        (fun r hr hpr => by rw [hstep r hr hpr])

/-- C5 (witness): one single-page repository with an empty-Message row;
the second run replays it byte-identically with zero row-building
fetches. -/
theorem C5_idempotence_amended_witness :
    (runOnce
        ⟨[[⟨"lab-a", "2024-01-01T00:00:00Z", "2024-01-02T00:00:00Z", some "main"⟩]],
         fun _ => Except.ok [],
         fun _ => ⟨Except.ok [], Except.error (), Except.error (), Except.error ()⟩⟩
        (fun _ => true)
        ((runOnce
          ⟨[[⟨"lab-a", "2024-01-01T00:00:00Z", "2024-01-02T00:00:00Z", some "main"⟩]],
           fun _ => Except.ok [],
           fun _ => ⟨Except.ok [], Except.error (), Except.error (), Except.error ()⟩⟩
          (fun _ => true) []).new_cache)).rows
      = (runOnce
          ⟨[[⟨"lab-a", "2024-01-01T00:00:00Z", "2024-01-02T00:00:00Z", some "main"⟩]],
           fun _ => Except.ok [],
           fun _ => ⟨Except.ok [], Except.error (), Except.error (), Except.error ()⟩⟩
          (fun _ => true) []).rows
    ∧ (runOnce
        ⟨[[⟨"lab-a", "2024-01-01T00:00:00Z", "2024-01-02T00:00:00Z", some "main"⟩]],
         fun _ => Except.ok [],
         fun _ => ⟨Except.ok [], Except.error (), Except.error (), Except.error ()⟩⟩
        (fun _ => true)
        ((runOnce
          ⟨[[⟨"lab-a", "2024-01-01T00:00:00Z", "2024-01-02T00:00:00Z", some "main"⟩]],
           fun _ => Except.ok [],
           fun _ => ⟨Except.ok [], Except.error (), Except.error (), Except.error ()⟩⟩
          (fun _ => true) []).new_cache)).buildCalls = 0 :=
  C5_idempotence_amended
    ⟨[[⟨"lab-a", "2024-01-01T00:00:00Z", "2024-01-02T00:00:00Z", some "main"⟩]],
     fun _ => Except.ok [],
     fun _ => ⟨Except.ok [], Except.error (), Except.error (), Except.error ()⟩⟩
    (fun _ => true) []
    [⟨"lab-a", "2024-01-01T00:00:00Z", "2024-01-02T00:00:00Z", some "main"⟩]
    rfl (by decide) (by decide)

-- sanity: spec scenario 7 — a later mentor reaction on the pending
-- comment advances the watermark and clears the pending-message flag
example :
    mentorLastSeenFinal [⟨"kc8se", "CHANGES_REQUESTED", "2024-02-05T00:00:00Z"⟩]
      [⟨"alice", "2024-02-11T00:00:00Z",
        Except.ok [⟨"kc8se", "2024-02-12T00:00:00Z"⟩]⟩] = "2024-02-12T00:00:00Z" := by
  decide
example :
    msgFlag [⟨"kc8se", "CHANGES_REQUESTED", "2024-02-05T00:00:00Z"⟩]
      [⟨"alice", "2024-02-11T00:00:00Z",
        Except.ok [⟨"kc8se", "2024-02-12T00:00:00Z"⟩]⟩] = false := by
  decide
